import Mathlib

/-!
Verification of the LPA string processor of the eSIM swap web application.

The source is JavaScript (src/app.js and the duplicated variant in
src/unnamed/part_000).  JS strings are modelled as `List Char`; JS regular
expressions used by the code are embedded as executable character-list
predicates; `String.prototype.trim` is modelled on the ASCII whitespace
characters that occur in the claims (space, tab, newline, carriage return,
vertical tab, form feed).

Embedded functions (names follow the source):
  * `parseESIMInput`, `generateLPAString`, `validateSMDPAddress`,
    `validateActivationCode` — the English-variant parser (app.js 615-735);
  * `parseEsimInput`, `generateLpaString`, `isValidSmdpAddress`,
    `isValidActivationCode` — the Chinese-variant parser (app.js 2859-2983,
    identical in src/unnamed/part_000 581-700);
  * `parseLpaString` — the unvalidated QR-payload parser (app.js 1731-1751);
  * `tryFixQRCode` — the repair advisor (app.js 1023-1098);
  * `isPotentialESIMData` — the heuristic classifier (app.js 826-837).
-/

abbrev Str := List Char

/-- Whitespace recognised by the model of JS `trim` and of regex `\s`. -/
def isWS (c : Char) : Bool :=
  c == ' ' || c == '\t' || c == '\n' || c == '\r' || c == '\u000B' || c == '\u000C'

/-- Model of JS `String.prototype.trimStart`. -/
def trimStart (l : Str) : Str := l.dropWhile isWS

/-- Model of JS `String.prototype.trimEnd`. -/
def trimEnd (l : Str) : Str := (l.reverse.dropWhile isWS).reverse

/-- Model of JS `String.prototype.trim`. -/
def jsTrim (l : Str) : Str := trimEnd (trimStart l)

/-- Model of JS `String.prototype.includes` for a single character. -/
def containsCh (l : Str) (c : Char) : Bool := l.any (fun x => x == c)

/-- Function `startsW p l` models JS `l.startsWith(p)`. -/
def startsW : Str → Str → Bool
  | [], _ => true
  | _ :: _, [] => false
  | p :: ps, x :: xs => p == x && startsW ps xs

/-- Model of JS `String.prototype.includes` for a multi-character pattern. -/
def containsSub (pat : Str) : Str → Bool
  | [] => pat.isEmpty
  | x :: xs => startsW pat (x :: xs) || containsSub pat xs

/-- Function `splitBy p l` models JS `l.split(re)` where the regex `re` matches
exactly one character satisfying `p`. -/
def splitBy (p : Char → Bool) : Str → List Str
  | [] => [[]]
  | x :: xs =>
    if p x then [] :: splitBy p xs
    else
      match splitBy p xs with
      | [] => [[x]]
      | y :: ys => (x :: y) :: ys

/-- Function `splitCh c l` models JS `l.split(c)` for a one-character separator. -/
def splitCh (c : Char) (l : Str) : List Str := splitBy (fun x => x == c) l

/-- Function `replaceFirst pat rep l` models JS `l.replace(pat, rep)` with a
string (non-regex) pattern, which replaces only the first occurrence. -/
def replaceFirst (pat rep : Str) : Str → Str
  | [] => if startsW pat [] then rep ++ List.drop pat.length [] else []
  | x :: xs =>
    if startsW pat (x :: xs) then rep ++ List.drop pat.length (x :: xs)
    else x :: replaceFirst pat rep xs

/-- Predicate `hasRun p n l`: some `n` consecutive characters of `l` all
satisfy `p`.  This is JS `re.test(l)` for the unanchored regex with a
lower repetition bound of `n`. -/
def hasRun (p : Char → Bool) (n : Nat) : Str → Bool
  | [] => n == 0
  | x :: xs =>
    (((x :: xs).take n).length == n && ((x :: xs).take n).all p) || hasRun p n xs

/-- Character class `[a-zA-Z0-9.-]` of the English domain regex. -/
def isDomChar (c : Char) : Bool := c.isAlpha || c.isDigit || c == '.' || c == '-'

/-- Character class `[A-Za-z0-9-]` (regex `[A-Z0-9-]` with the `i` flag). -/
def isCodeChar (c : Char) : Bool := c.isAlpha || c.isDigit || c == '-'

/-- Character class `[A-Z0-9-]` *without* the `i` flag (used by
`isPotentialESIMData`, app.js line 833). -/
def isUpperCodeChar (c : Char) : Bool :=
  ('A' ≤ c && c ≤ 'Z') || c.isDigit || c == '-'

/-- Tail matcher for the English domain regex: matches `\.[a-zA-Z]{2,}$`. -/
def tldTail : Str → Bool
  | [] => false
  | c :: rest => c == '.' && 2 ≤ rest.length && rest.all Char.isAlpha

/-- Full matcher for `/^[a-zA-Z0-9.-]+\.[a-zA-Z]{2,}$/` (app.js line 725):
one or more `isDomChar` characters followed by a dot and a 2+-letter TLD. -/
def domMatch : Str → Bool
  | [] => false
  | c :: rest => isDomChar c && (tldTail rest || domMatch rest)

/-- app.js 722-726: `validateSMDPAddress` (English variant). -/
def validateSMDPAddress (address : Str) : Bool :=
  !address.isEmpty && domMatch (jsTrim address)

/-- app.js 731-735: `validateActivationCode` (English variant), embedding
`/^[A-Z0-9-]{8,}$/i.test(code.trim())`. -/
def validateActivationCode (code : Str) : Bool :=
  !code.isEmpty && 8 ≤ (jsTrim code).length && (jsTrim code).all isCodeChar

/-- One label of the Chinese domain regex:
`[a-zA-Z0-9]([a-zA-Z0-9-]{0,61}[a-zA-Z0-9])?`. -/
def labelOk : Str → Bool
  | [] => false
  | [c] => c.isAlphanum
  | c :: cs =>
    c.isAlphanum && cs.length ≤ 62 &&
    cs.dropLast.all (fun d => d.isAlphanum || d == '-') && (cs.getLastD '0').isAlphanum

/-- app.js 2968-2973: `isValidSmdpAddress` (Chinese variant).  The regex
`^Label(\.Label)*$` is embedded by checking every dot-separated label. -/
def isValidSmdpAddress (address : Str) : Bool :=
  !address.isEmpty && (splitCh '.' address).all labelOk && containsCh address '.'

/-- app.js 2978-2983: `isValidActivationCode` (Chinese variant), embedding
`/^[A-Z0-9-]+$/i.test(code) && code.length >= 5 && code.length <= 50`. -/
def isValidActivationCode (code : Str) : Bool :=
  !code.isEmpty && code.all isCodeChar && 5 ≤ code.length && code.length ≤ 50

/-- Typed failures; each constructor stands for one distinct error message
returned by the source. -/
inductive PErr where
  | emptyInput            -- "Input cannot be empty"
  | malformedLPA          -- "LPA format error: missing required information"
  | insufficientFields    -- "Format error: at least SM-DP+ address and activation code required"
  | unrecognizedFormat    -- "Unable to recognize input format, please use standard format"
  | invalidAddress        -- "Invalid SM-DP+ address format"
  | invalidActivationCode -- "Invalid activation code format"
  | notLpaFormat          -- "Not valid eSIM LPA format" (parseLpaString)
  | lpaFormatError        -- "LPA format error" (parseLpaString)
  deriving DecidableEq, Repr

/-- Result of a parse: `{success:true, data:{smdpAddress, activationCode,
password}}` or `{success:false, error}`. -/
inductive ParseResult where
  | ok (smdpAddress activationCode password : Str)
  | err (e : PErr)
  deriving DecidableEq, Repr

def lpaD : Str := "LPA:".data

def lpa1D : Str := "LPA:1$".data

/-- Final validation step of `parseESIMInput` (app.js 686-701). -/
def finishEn (smdpAddress activationCode password : Str) : ParseResult :=
  if validateSMDPAddress smdpAddress then
    if validateActivationCode activationCode then
      .ok smdpAddress activationCode password
    else .err .invalidActivationCode
  else .err .invalidAddress

/-- Final validation step of `parseEsimInput` (app.js 2932-2947). -/
def finishZh (smdpAddress activationCode password : Str) : ParseResult :=
  if isValidSmdpAddress smdpAddress then
    if isValidActivationCode activationCode then
      .ok smdpAddress activationCode password
    else .err .invalidActivationCode
  else .err .invalidAddress

/-- The separator loop of `parseESIMInput` / `parseEsimInput`
(app.js 661-675 resp. 2908-2922): first separator contained in the input whose
split yields at least two non-blank parts wins; `undefined`-vs-absent JS
details collapse to the empty string, exactly as `parts[2] ? parts[2].trim() :
''` does. -/
def trySeps : List Char → Str → Option (Str × Str × Str)
  | [], _ => none
  | sep :: rest, s =>
    if containsCh s sep then
      let parts := (splitCh sep s).filter (fun q => !(jsTrim q).isEmpty)
      if 2 ≤ parts.length then
        some (jsTrim (parts.getD 0 []), jsTrim (parts.getD 1 []),
          match parts[2]? with
          | some q => jsTrim q
          | none => [])
      else trySeps rest s
    else trySeps rest s

def sepsEn : List Char := [' ', ',', '|', ';', '\t', '\n']

def sepsZh : List Char := ['|', ';', ':', ',', ' ']

/-- app.js 615-706: `parseESIMInput` (English variant).  JS `undefined` field
accesses (`parts[i]` past the end) are modelled as the empty string: they are
either defaulted by `|| ''` or rejected by the validators, exactly as the
empty string is. -/
def parseESIMInput (input : Str) : ParseResult :=
  let cleanInput := jsTrim input
  if cleanInput.isEmpty then .err .emptyInput
  else if startsW lpaD cleanInput then
    let parts := splitCh '$' (cleanInput.drop 4)
    if parts.length < 3 then .err .malformedLPA
    else finishEn (parts.getD 1 []) (parts.getD 2 []) (parts.getD 3 [])
  else if containsCh cleanInput '$' then
    let parts := splitCh '$' cleanInput
    if parts.length < 2 then .err .insufficientFields
    else if parts.getD 0 [] = ['1'] then
      finishEn (parts.getD 1 []) (parts.getD 2 []) (parts.getD 3 [])
    else
      finishEn (parts.getD 0 []) (parts.getD 1 []) (parts.getD 2 [])
  else
    match trySeps sepsEn cleanInput with
    | some (a, c, p) => finishEn a c p
    | none => .err .unrecognizedFormat

/-- app.js 2859-2952 (and src/unnamed/part_000 581-665): `parseEsimInput`
(Chinese variant).  Its cleaning step removes every whitespace character:
`input.trim().replace(/\s+/g, '').replace(/[\r\n\t]/g, '')`. -/
def parseEsimInput (input : Str) : ParseResult :=
  let cleanInput := (jsTrim input).filter (fun c => !isWS c)
  if cleanInput.isEmpty then .err .emptyInput
  else if startsW lpa1D cleanInput then
    let parts := splitCh '$' (cleanInput.drop 6)
    if parts.length < 2 then .err .malformedLPA
    else finishZh (parts.getD 0 []) (parts.getD 1 []) (parts.getD 2 [])
  else if containsCh cleanInput '$' then
    let parts := splitCh '$' cleanInput
    if parts.length < 2 then .err .insufficientFields
    else if parts.getD 0 [] = ['1'] ∧ 3 ≤ parts.length then
      finishZh (parts.getD 1 []) (parts.getD 2 []) (parts.getD 3 [])
    else
      finishZh (parts.getD 0 []) (parts.getD 1 []) (parts.getD 2 [])
  else
    match trySeps sepsZh cleanInput with
    | some (a, c, p) => finishZh a c p
    | none => .err .unrecognizedFormat

/-- app.js 711-717: `generateLPAString`. -/
def generateLPAString (smdpAddress activationCode : Str) (password : Str) : Str :=
  if password.isEmpty then lpa1D ++ smdpAddress ++ ['$'] ++ activationCode
  else lpa1D ++ smdpAddress ++ ['$'] ++ activationCode ++ ['$'] ++ password

/-- app.js 1731-1751: `parseLpaString`, the QR-payload parse path.  It neither
trims nor validates the extracted fields. -/
def parseLpaString (lpaString : Str) : ParseResult :=
  if !startsW lpaD lpaString then .err .notLpaFormat
  else
    let parts := splitCh '$' (lpaString.drop 4)
    if parts.length < 3 then .err .lpaFormatError
    else .ok (parts.getD 1 []) (parts.getD 2 []) (parts.getD 3 [])

/-- app.js 826-837: `isPotentialESIMData`.  Note the source lower-cases the
text and then tests the case-sensitive regex `/[A-Z0-9-]{10,}/`. -/
def isPotentialESIMData (text : Str) : Bool :=
  let cleanData := (jsTrim text).map Char.toLower
  containsCh cleanData '$' || containsCh cleanData '.' ||
  hasRun isUpperCodeChar 10 cleanData ||
  containsSub "lpa".data cleanData || containsSub "esim".data cleanData

/-- The repair advisor's diagnosed problem (one constructor per message of
app.js 1023-1098). -/
inductive FixProblem where
  | missingLPA     -- "Missing LPA: prefix"
  | missingVersion -- "Missing version number \x221$\x22"
  | reorganized    -- "Format confusion, reorganized"
  | notValidLPA    -- "Not valid eSIM LPA format, please manually input ..."
  | unrecognized   -- "Unrecognizable QR code format, may not be eSIM ..."
  deriving DecidableEq, Repr

/-- Result of the repair advisor: `{success:true, fixed, problem}` or
`{success:false, problem}`. -/
inductive FixResult where
  | fixed (fixedStr : Str) (problem : FixProblem)
  | failed (problem : FixProblem)
  deriving DecidableEq, Repr

/-- Delimiter class `[$\s,|;]` of the repair advisor's rule 3. -/
def isFixDelim (c : Char) : Bool :=
  c == '$' || isWS c || c == ',' || c == '|' || c == ';'

/-- Activation-code pattern of rule 3: `/^[A-Z0-9-]{8,}$/i` (untrimmed). -/
def fixCodePat (p : Str) : Bool := 8 ≤ p.length && p.all isCodeChar

/-- Rules 4 and 5 of the repair advisor (app.js 1085-1097). -/
def fixTail (cleanData : Str) : FixResult :=
  if isPotentialESIMData cleanData then .failed .notValidLPA
  else .failed .unrecognized

/-- app.js 1023-1098: `tryFixQRCode`, the repair advisor.  The source's
sequence of early-`return` `if` statements is flattened into a decision
chain; rule 1's nested `if` falls through to rule 2 (and further) when its
inner condition fails, which the chain reproduces because rule 2 requires the
`LPA:` start that rule 1's outer condition denies. -/
def tryFixQRCode (qrData : Str) : FixResult :=
  let cleanData := jsTrim qrData
  if !startsW lpaD cleanData && containsCh cleanData '$' &&
      2 ≤ (splitCh '$' cleanData).length then
    .fixed ("LPA:".data ++
      (if startsW "1$".data cleanData then cleanData else "1$".data ++ cleanData))
      .missingLPA
  else if startsW lpaD cleanData && !startsW lpa1D cleanData &&
      containsCh (cleanData.drop 4) '$' &&
      2 ≤ (splitCh '$' (cleanData.drop 4)).length then
    .fixed (lpa1D ++ cleanData.drop 4) .missingVersion
  else
    let parts := splitBy isFixDelim (replaceFirst lpaD [] cleanData)
    if 2 ≤ parts.length then
      match parts.find? (fun p => containsCh p '.'),
            parts.find? (fun p => fixCodePat p && !containsCh p '.') with
      | some smdpAddress, some activationCode =>
        match parts.find? (fun p =>
            !p.isEmpty && !(p == smdpAddress) && !(p == activationCode) &&
            !(p == ['1'])) with
        | some password =>
          .fixed (lpa1D ++ smdpAddress ++ ['$'] ++ activationCode ++ ['$'] ++ password)
            .reorganized
        | none =>
          .fixed (lpa1D ++ smdpAddress ++ ['$'] ++ activationCode) .reorganized
      | _, _ => fixTail cleanData
    else fixTail cleanData

/-- Result of the EsimSwapApp `parseLpaString` (app.js 3844-3865): its data
object carries `password: parts[2] || null` (an absent or empty third field
becomes `null`) and the raw input. -/
inductive ParseResultApp where
  | ok (smdpAddress activationCode : Str) (password : Option Str) (rawData : Str)
  | err (e : PErr)
  deriving DecidableEq, Repr

/-- app.js 3844-3865: `parseLpaString` (EsimSwapApp variant).  It demands the
exact `LPA:1$` start, splits the remainder on `$`, requires 2 segments, and
performs no field validation. -/
def parseLpaStringApp (lpaString : Str) : ParseResultApp :=
  if !startsW lpa1D lpaString then .err .notLpaFormat
  else
    let parts := splitCh '$' (lpaString.drop 6)
    if parts.length < 2 then .err .lpaFormatError
    else .ok (parts.getD 0 []) (parts.getD 1 [])
      (match parts[2]? with
       | some p => if p.isEmpty then none else some p
       | none => none)
      lpaString

/-- Address filter of the EsimSwapApp reorganization loop (app.js 3405):
`part.includes('.') && part.length > 5`. -/
def dotRuleApp (p : Str) : Bool := containsCh p '.' && decide (5 < p.length)

/-- Code filter of the EsimSwapApp reorganization loop (app.js 3407):
`part.length > 10 && /^[A-Z0-9-]+$/i.test(part)`. -/
def codeRuleApp (p : Str) : Bool := decide (10 < p.length) && p.all isCodeChar

/-- Model of the overwrite loop of app.js 3404-3410: the *last* segment
satisfying the filter wins (`none` when no segment matches, which models the
loop variable keeping its falsy initial value). -/
def loopPick (p : Str → Bool) (parts : List Str) : Option Str :=
  parts.foldl (fun acc part => if p part then some part else acc) none

/-- Result of the EsimSwapApp `tryFixQRCode`: on success it carries the fixed
string *and* the re-parsed data object. -/
inductive AppFixResult where
  | ok (problem : FixProblem) (fixedLPA : Str) (smdpAddress activationCode : Str)
      (password : Option Str) (rawData : Str)
  | failed (problem : FixProblem)
  deriving DecidableEq, Repr

/-- app.js 3354-3440: `tryFixQRCode` (EsimSwapApp variant).  Unlike the
English advisor, each rule re-parses its candidate with `parseLpaStringApp`
and only returns on success, falling through to the next rule otherwise;
rule 3 splits the whole cleaned string (prefix included) on `$` only, takes
the *last* segment passing each filter, and always drops any fourth segment;
rule 4 requires a `$`-free text longer than 20 characters. -/
def tryFixQRCodeApp (qrData : Str) : AppFixResult :=
  let cleanData := jsTrim qrData
  let step45 : AppFixResult :=
    if containsCh cleanData '$' = false ∧ 20 < cleanData.length then
      .failed .notValidLPA
    else .failed .unrecognized
  let step3 : AppFixResult :=
    if containsCh cleanData '$' = true ∧ 2 ≤ (splitCh '$' cleanData).length then
      match loopPick dotRuleApp (splitCh '$' cleanData),
            loopPick (fun p => !dotRuleApp p && codeRuleApp p) (splitCh '$' cleanData) with
      | some smdpAddress, some activationCode =>
        match parseLpaStringApp (lpa1D ++ smdpAddress ++ '$' :: activationCode) with
        | .ok a c pw raw =>
          .ok .reorganized (lpa1D ++ smdpAddress ++ '$' :: activationCode) a c pw raw
        | .err _ => step45
      | _, _ => step45
    else step45
  let step2 : AppFixResult :=
    if startsW lpaD cleanData = true ∧ startsW lpa1D cleanData = false ∧
        containsCh (cleanData.drop 4) '$' = true then
      match parseLpaStringApp (lpa1D ++ cleanData.drop 4) with
      | .ok a c pw raw => .ok .missingVersion (lpa1D ++ cleanData.drop 4) a c pw raw
      | .err _ => step3
    else step3
  if startsW lpaD cleanData = false ∧ containsCh cleanData '$' = true ∧
      2 ≤ (splitCh '$' cleanData).length then
    match parseLpaStringApp ("LPA:".data ++
        (if startsW "1$".data cleanData then [] else "1$".data) ++ cleanData) with
    | .ok a c pw raw =>
      .ok .missingLPA ("LPA:".data ++
        (if startsW "1$".data cleanData then [] else "1$".data) ++ cleanData) a c pw raw
    | .err _ => step2
  else step2

example : parseESIMInput "LPA:1$t-mobile.idemia.io$1BCH0-T6TKQ-PWCXS-FM6OD".data =
    .ok "t-mobile.idemia.io".data "1BCH0-T6TKQ-PWCXS-FM6OD".data [] := by decide

example : parseESIMInput "".data = .err .emptyInput := by decide

example : parseESIMInput "t-mobile.idemia.io$1BCH0-T6TKQ-PWCXS-FM6OD".data =
    .ok "t-mobile.idemia.io".data "1BCH0-T6TKQ-PWCXS-FM6OD".data [] := by decide

example : parseESIMInput "LPA:1$not_a_domain$ABC12345".data = .err .invalidAddress := by
  decide

/-! ### Basic lemmas about the string model -/

theorem startsW_append (p l : Str) : startsW p (p ++ l) = true := by
  induction p with
  | nil => simp [startsW]
  | cons c cs ih => simp [startsW, ih]

theorem startsW_decomp : ∀ (p l : Str), startsW p l = true → l = p ++ l.drop p.length := by
  intro p
  induction p with
  | nil => intro l _; simp
  | cons c cs ih =>
    intro l h
    cases l with
    | nil => simp [startsW] at h
    | cons x xs =>
      simp only [startsW, Bool.and_eq_true, beq_iff_eq] at h
      obtain ⟨rfl, h2⟩ := h
      simpa using ih xs h2

theorem startsW_weaken : ∀ (p q l : Str), startsW (p ++ q) l = true → startsW p l = true := by
  intro p
  induction p with
  | nil => intro q l _; simp [startsW]
  | cons c cs ih =>
    intro q l h
    cases l with
    | nil => simp [startsW] at h
    | cons x xs =>
      simp only [List.cons_append, startsW, Bool.and_eq_true] at h ⊢
      exact ⟨h.1, ih q xs h.2⟩

theorem splitBy_ne_nil (p : Char → Bool) (l : Str) : splitBy p l ≠ [] := by
  cases l with
  | nil => simp [splitBy]
  | cons x xs =>
    simp only [splitBy]
    split
    · simp
    · split <;> simp

theorem splitBy_all_not (p : Char → Bool) (l : Str) (h : ∀ x ∈ l, p x = false) :
    splitBy p l = [l] := by
  induction l with
  | nil => simp [splitBy]
  | cons x xs ih =>
    have hx : p x = false := h x (by simp)
    have hxs : splitBy p xs = [xs] := ih (fun y hy => h y (by simp [hy]))
    simp [splitBy, hx, hxs]

theorem splitBy_append (p : Char → Bool) (l₁ l₂ : Str) (d : Char)
    (h1 : ∀ x ∈ l₁, p x = false) (hd : p d = true) :
    splitBy p (l₁ ++ d :: l₂) = l₁ :: splitBy p l₂ := by
  induction l₁ with
  | nil => simp [splitBy, hd]
  | cons x xs ih =>
    have hx : p x = false := h1 x (by simp)
    have := ih (fun y hy => h1 y (by simp [hy]))
    simp only [List.cons_append, splitBy, hx, Bool.false_eq_true, if_false]
    simp only [List.append_eq]
    rw [this]

theorem containsCh_eq_false_iff (l : Str) (c : Char) :
    containsCh l c = false ↔ ∀ x ∈ l, x ≠ c := by
  simp [containsCh, List.any_eq_true]

theorem containsCh_first (l : Str) (c : Char) (h : containsCh l c = true) :
    ∃ l₁ l₂, l = l₁ ++ c :: l₂ ∧ (∀ x ∈ l₁, x ≠ c) := by
  induction l with
  | nil => simp [containsCh] at h
  | cons x xs ih =>
    by_cases hx : x = c
    · exact ⟨[], xs, by simp [hx], by simp⟩
    · have hxs : containsCh xs c = true := by
        simp only [containsCh, List.any_cons, Bool.or_eq_true, beq_iff_eq] at h
        rcases h with h | h
        · exact absurd h hx
        · simpa [containsCh] using h
      obtain ⟨l₁, l₂, rfl, hall⟩ := ih hxs
      exact ⟨x :: l₁, l₂, by simp, by
        intro y hy
        rcases List.mem_cons.mp hy with rfl | hy
        · exact hx
        · exact hall y hy⟩

theorem splitCh_of_not_contains (c : Char) (l : Str) (h : containsCh l c = false) :
    splitCh c l = [l] := by
  refine splitBy_all_not _ _ ?_
  intro x hx
  have := (containsCh_eq_false_iff l c).mp h x hx
  simpa using this

theorem splitCh_length_ge_two (c : Char) (l : Str) (h : containsCh l c = true) :
    2 ≤ (splitCh c l).length := by
  obtain ⟨l₁, l₂, rfl, hall⟩ := containsCh_first l c h
  have : splitCh c (l₁ ++ c :: l₂) = l₁ :: splitCh (c) l₂ := by
    refine splitBy_append _ _ _ _ ?_ (by simp)
    intro x hx
    simpa using hall x hx
  rw [splitCh] at this ⊢
  rw [this]
  have := splitBy_ne_nil (fun x => x == c) l₂
  cases hh : splitBy (fun x => x == c) l₂ with
  | nil => exact absurd hh this
  | cons y ys => simp [splitCh, hh]

/-! ### Lemmas about trimming -/

theorem dropWhile_head_false (p : Char → Bool) :
    ∀ (l : Str) (x : Char) (xs : Str), List.dropWhile p l = x :: xs → p x = false := by
  intro l
  induction l with
  | nil => intro x xs h; simp [List.dropWhile] at h
  | cons y ys ih =>
    intro x xs h
    rw [List.dropWhile_cons] at h
    split at h
    · exact ih x xs h
    · cases h; simpa using ‹¬ p y = true›

theorem trimStart_eq_self (l : Str) (h : ∀ x, l.head? = some x → isWS x = false) :
    trimStart l = l := by
  cases l with
  | nil => simp [trimStart]
  | cons x xs =>
    have := h x rfl
    simp [trimStart, List.dropWhile_cons, this]

theorem trimEnd_eq_self (l : Str) (h : ∀ x, l.getLast? = some x → isWS x = false) :
    trimEnd l = l := by
  rcases hr : l.reverse with _ | ⟨y, ys⟩
  · have : l = [] := by simpa using congrArg List.reverse hr
    simp [this, trimEnd]
  · have hy : l.getLast? = some y := by
      rw [← List.head?_reverse, hr]; rfl
    have := h y hy
    unfold trimEnd
    rw [hr, List.dropWhile_cons, this]
    simp only [Bool.false_eq_true, if_false]
    rw [← hr, List.reverse_reverse]

theorem jsTrim_eq_self (l : Str)
    (h1 : ∀ x, l.head? = some x → isWS x = false)
    (h2 : ∀ x, l.getLast? = some x → isWS x = false) :
    jsTrim l = l := by
  unfold jsTrim
  rw [trimStart_eq_self l h1, trimEnd_eq_self l h2]

theorem trimEnd_getLast_not_ws (l : Str) (x : Char)
    (h : (trimEnd l).getLast? = some x) : isWS x = false := by
  unfold trimEnd at h
  rw [← List.head?_reverse, List.reverse_reverse] at h
  rcases hd : List.dropWhile isWS l.reverse with _ | ⟨y, ys⟩
  · rw [hd] at h; simp at h
  · rw [hd] at h
    cases h
    exact dropWhile_head_false isWS l.reverse x ys hd

theorem jsTrim_getLast_not_ws (l : Str) (x : Char)
    (h : (jsTrim l).getLast? = some x) : isWS x = false :=
  trimEnd_getLast_not_ws (trimStart l) x h

theorem replaceFirst_of_startsW (pat rep l : Str) (h : startsW pat l = true) :
    replaceFirst pat rep l = rep ++ l.drop pat.length := by
  cases l with
  | nil => simp [replaceFirst, h]
  | cons x xs => simp [replaceFirst, h]

theorem fixDelim_cases (c : Char) (h : isFixDelim c = true) :
    c = '$' ∨ c = ' ' ∨ c = '\t' ∨ c = '\n' ∨ c = '\r' ∨ c = '\u000B' ∨
      c = '\u000C' ∨ c = ',' ∨ c = '|' ∨ c = ';' := by
  simp only [isFixDelim, isWS, Bool.or_eq_true, beq_iff_eq] at h
  tauto

theorem ws_cases (c : Char) (h : isWS c = true) :
    c = ' ' ∨ c = '\t' ∨ c = '\n' ∨ c = '\r' ∨ c = '\u000B' ∨ c = '\u000C' := by
  simp only [isWS, Bool.or_eq_true, beq_iff_eq] at h
  tauto

theorem isDomChar_not_fixDelim (c : Char) (h : isDomChar c = true) :
    isFixDelim c = false := by
  cases hfd : isFixDelim c
  · rfl
  · rcases fixDelim_cases c hfd with rfl|rfl|rfl|rfl|rfl|rfl|rfl|rfl|rfl|rfl <;>
      exact absurd h (by decide)

theorem isCodeChar_not_fixDelim (c : Char) (h : isCodeChar c = true) :
    isFixDelim c = false := by
  cases hfd : isFixDelim c
  · rfl
  · rcases fixDelim_cases c hfd with rfl|rfl|rfl|rfl|rfl|rfl|rfl|rfl|rfl|rfl <;>
      exact absurd h (by decide)

theorem isCodeChar_not_dot (c : Char) (h : isCodeChar c = true) : (c == '.') = false := by
  cases hb : c == '.'
  · rfl
  · have : c = '.' := by simpa using hb
    subst this
    exact absurd h (by decide)

theorem isCodeChar_not_ws (c : Char) (h : isCodeChar c = true) : isWS c = false := by
  cases hb : isWS c
  · rfl
  · rcases ws_cases c hb with rfl|rfl|rfl|rfl|rfl|rfl <;> exact absurd h (by decide)

theorem isDomChar_not_ws (c : Char) (h : isDomChar c = true) : isWS c = false := by
  cases hb : isWS c
  · rfl
  · rcases ws_cases c hb with rfl|rfl|rfl|rfl|rfl|rfl <;> exact absurd h (by decide)

theorem isDomChar_not_dollar (c : Char) (h : isDomChar c = true) : (c == '$') = false := by
  cases hb : c == '$'
  · rfl
  · have : c = '$' := by simpa using hb
    subst this
    exact absurd h (by decide)

theorem isCodeChar_not_dollar (c : Char) (h : isCodeChar c = true) : (c == '$') = false := by
  cases hb : c == '$'
  · rfl
  · have : c = '$' := by simpa using hb
    subst this
    exact absurd h (by decide)

/-- Every character of a full match of the English domain regex is in the
class `[a-zA-Z0-9.-]`, and the match contains a dot. -/
theorem domMatch_chars : ∀ l : Str, domMatch l = true →
    (∀ x ∈ l, isDomChar x = true) ∧ containsCh l '.' = true := by
  intro l
  induction l with
  | nil => intro h; simp [domMatch] at h
  | cons c rest ih =>
    intro h
    simp only [domMatch, Bool.and_eq_true, Bool.or_eq_true] at h
    obtain ⟨hc, htail⟩ := h
    rcases htail with htl | hdm
    · -- the tail matches \.[a-zA-Z]{2,}$
      cases rest with
      | nil => simp [tldTail] at htl
      | cons r0 tl =>
        simp only [tldTail, Bool.and_eq_true, beq_iff_eq, decide_eq_true_eq,
          List.all_eq_true] at htl
        obtain ⟨⟨hr0, _⟩, halpha⟩ := htl
        subst hr0
        refine ⟨?_, ?_⟩
        · intro x hx
          rcases List.mem_cons.mp hx with rfl | hx
          · exact hc
          · rcases List.mem_cons.mp hx with rfl | hx
            · decide
            · have := halpha x hx
              simp [isDomChar, this]
        · simp [containsCh]
    · obtain ⟨hall, hdot⟩ := ih hdm
      refine ⟨?_, ?_⟩
      · intro x hx
        rcases List.mem_cons.mp hx with rfl | hx
        · exact hc
        · exact hall x hx
      · simp only [containsCh, List.any_cons, Bool.or_eq_true]
        exact Or.inr hdot

/-- Inversion of the English validation step. -/
theorem finishEn_ok_iff (x y z a c p : Str) :
    finishEn x y z = .ok a c p ↔
      validateSMDPAddress x = true ∧ validateActivationCode y = true ∧
        x = a ∧ y = c ∧ z = p := by
  unfold finishEn
  split
  · split
    · simp_all
    · simp_all
  · simp_all

/-- Inversion of the Chinese validation step. -/
theorem finishZh_ok_iff (x y z a c p : Str) :
    finishZh x y z = .ok a c p ↔
      isValidSmdpAddress x = true ∧ isValidActivationCode y = true ∧
        x = a ∧ y = c ∧ z = p := by
  unfold finishZh
  split
  · split
    · simp_all
    · simp_all
  · simp_all

theorem validateSMDPAddress_ne_nil (a : Str) (h : validateSMDPAddress a = true) :
    a ≠ [] := by
  intro hnil
  subst hnil
  exact absurd h (by decide)

theorem validateActivationCode_ne_nil (c : Str) (h : validateActivationCode c = true) :
    c ≠ [] := by
  intro hnil
  subst hnil
  exact absurd h (by decide)

theorem isValidSmdpAddress_ne_nil (a : Str) (h : isValidSmdpAddress a = true) :
    a ≠ [] := by
  intro hnil
  subst hnil
  exact absurd h (by decide)

theorem isValidActivationCode_ne_nil (c : Str) (h : isValidActivationCode c = true) :
    c ≠ [] := by
  intro hnil
  subst hnil
  exact absurd h (by decide)

/-- Every success of the English parser went through its validation step. -/
theorem parseESIMInput_ok_validated (input a c p : Str)
    (h : parseESIMInput input = .ok a c p) :
    validateSMDPAddress a = true ∧ validateActivationCode c = true := by
  simp only [parseESIMInput] at h
  repeat' split at h
  all_goals
    first
    | exact ParseResult.noConfusion h
    | (rw [finishEn_ok_iff] at h
       obtain ⟨h1, h2, rfl, rfl, rfl⟩ := h
       exact ⟨h1, h2⟩)

/-- Every success of the Chinese parser went through its validation step. -/
theorem parseEsimInput_ok_validated (input a c p : Str)
    (h : parseEsimInput input = .ok a c p) :
    isValidSmdpAddress a = true ∧ isValidActivationCode c = true := by
  simp only [parseEsimInput] at h
  repeat' split at h
  all_goals
    first
    | exact ParseResult.noConfusion h
    | (rw [finishZh_ok_iff] at h
       obtain ⟨h1, h2, rfl, rfl, rfl⟩ := h
       exact ⟨h1, h2⟩)

/-- C9 (code_bug): the claim says the heuristic classifier returns true for
every input of 10 or more consecutive alphanumeric characters, matching the
source's own comment "Contains long alphanumeric string (possibly activation
code)".  The code lower-cases the text and then tests the case-sensitive
regex `[A-Z0-9-]{10,}` (no `i` flag, app.js line 833), so a run of letters
can never match: the 11-letter input ABCDEFGHIJK is classified `false`. -/
theorem C9_classifierBug : isPotentialESIMData "ABCDEFGHIJK".data = false := by decide

/-- C2 counterexample: the QR-payload parse path `parseLpaString` performs no
field validation, so it succeeds on `LPA:1$$` returning an empty
`smdpAddress` and an empty `activationCode`, refuting the claim that every
successful parse of the core yields non-empty fields. -/
theorem C2_cex : parseLpaString "LPA:1$$".data = ParseResult.ok [] [] [] := by decide

/-- C2 amended: for the two validated parsers (`parseESIMInput` and
`parseEsimInput`) a successful parse does return non-empty `smdpAddress` and
`activationCode`; the unvalidated `parseLpaString` does not share this
invariant (see the counterexample). -/
theorem C2_nonempty (input a c p : Str) :
    (parseESIMInput input = .ok a c p → a ≠ [] ∧ c ≠ []) ∧
    (parseEsimInput input = .ok a c p → a ≠ [] ∧ c ≠ []) := by
  constructor
  · intro h
    obtain ⟨h1, h2⟩ := parseESIMInput_ok_validated input a c p h
    exact ⟨validateSMDPAddress_ne_nil a h1, validateActivationCode_ne_nil c h2⟩
  · intro h
    obtain ⟨h1, h2⟩ := parseEsimInput_ok_validated input a c p h
    exact ⟨isValidSmdpAddress_ne_nil a h1, isValidActivationCode_ne_nil c h2⟩

theorem C2_nonempty_witness :
    "t-mobile.idemia.io".data ≠ ([] : Str) ∧
      "1BCH0-T6TKQ-PWCXS-FM6OD".data ≠ ([] : Str) :=
  (C2_nonempty "LPA:1$t-mobile.idemia.io$1BCH0-T6TKQ-PWCXS-FM6OD".data
    "t-mobile.idemia.io".data "1BCH0-T6TKQ-PWCXS-FM6OD".data []).1 (by decide)

/-- C3 counterexample: the English parser validates the activation code
against `[A-Za-z0-9-]{8,}` (app.js line 734), not the claimed
`[A-Za-z0-9-]{5,50}`: it succeeds on an activation code of length 51, which
is outside the claimed pattern. -/
theorem C3_cex :
    parseESIMInput "a.io$AAAAAAAAAAAAAAAAAAAAAAAAAAAAAAAAAAAAAAAAAAAAAAAAAAA".data =
      ParseResult.ok "a.io".data
        "AAAAAAAAAAAAAAAAAAAAAAAAAAAAAAAAAAAAAAAAAAAAAAAAAAA".data [] ∧
    50 < "AAAAAAAAAAAAAAAAAAAAAAAAAAAAAAAAAAAAAAAAAAAAAAAAAAA".data.length := by decide

/-- C3 amended: the two parser variants enforce different activation-code
patterns.  The Chinese variant `parseEsimInput` enforces exactly the claimed
`[A-Za-z0-9-]{5,50}` (via `isValidActivationCode`); the English variant
`parseESIMInput` enforces `[A-Za-z0-9-]{8,}` on the trimmed code (via
`validateActivationCode`), with no upper bound. -/
theorem C3_codePattern (input a c p : Str) :
    (parseEsimInput input = .ok a c p → isValidActivationCode c = true) ∧
    (parseESIMInput input = .ok a c p → validateActivationCode c = true) := by
  constructor
  · intro h
    exact (parseEsimInput_ok_validated input a c p h).2
  · intro h
    exact (parseESIMInput_ok_validated input a c p h).2

theorem C3_codePattern_witness :
    parseEsimInput "a.io$ABC12".data = ParseResult.ok "a.io".data "ABC12".data [] ∧
      isValidActivationCode "ABC12".data = true :=
  ⟨by decide, (C3_codePattern "a.io$ABC12".data "a.io".data "ABC12".data []).1 (by decide)⟩

theorem splitCh_append (c : Char) (l₁ l₂ : Str) (h : ∀ x ∈ l₁, (x == c) = false) :
    splitCh c (l₁ ++ c :: l₂) = l₁ :: splitCh c l₂ :=
  splitBy_append _ l₁ l₂ c h (by simp)

theorem splitCh_all_not (c : Char) (l : Str) (h : ∀ x ∈ l, (x == c) = false) :
    splitCh c l = [l] :=
  splitBy_all_not _ l h

theorem ws_false_of_all {l : Str} (h : l.all (fun c => !isWS c) = true) :
    ∀ x ∈ l, isWS x = false := by
  intro x hx
  rw [List.all_eq_true] at h
  simpa using h x hx

theorem beq_false_of_not_contains {l : Str} {c : Char} (h : containsCh l c = false) :
    ∀ x ∈ l, (x == c) = false := by
  intro x hx
  simpa using (containsCh_eq_false_iff l c).mp h x hx

/-- When the trimmed input starts with `LPA:`, `parseESIMInput` reduces to the
version-prefix branch: split the content after the prefix on `$`, demand at
least 3 segments, and validate segments 1 and 2. -/
theorem parseESIMInput_lpaBranch (input : Str)
    (h : startsW lpaD (jsTrim input) = true) :
    parseESIMInput input =
      (let parts := splitCh '$' ((jsTrim input).drop 4)
       if parts.length < 3 then .err .malformedLPA
       else finishEn (parts.getD 1 []) (parts.getD 2 []) (parts.getD 3 [])) := by
  have hne : (jsTrim input).isEmpty = false := by
    rcases hcl : jsTrim input with _ | ⟨x, xs⟩
    · rw [hcl] at h
      exact absurd h (by decide)
    · rfl
  simp only [parseESIMInput, hne, h]
  simp

/-- When the cleaned input starts with `LPA:1$`, `parseEsimInput` reduces to
its version-prefix branch. -/
theorem parseEsimInput_lpaBranch (input : Str)
    (h : startsW lpa1D ((jsTrim input).filter (fun c => !isWS c)) = true) :
    parseEsimInput input =
      (let parts := splitCh '$' (((jsTrim input).filter (fun c => !isWS c)).drop 6)
       if parts.length < 2 then .err .malformedLPA
       else finishZh (parts.getD 0 []) (parts.getD 1 []) (parts.getD 2 [])) := by
  have hne : ((jsTrim input).filter (fun c => !isWS c)).isEmpty = false := by
    rcases hcl : (jsTrim input).filter (fun c => !isWS c) with _ | ⟨x, xs⟩
    · rw [hcl] at h
      exact absurd h (by decide)
    · rfl
  simp only [parseEsimInput, hne, h]
  simp

/-- Parsing a generated canonical LPA string with the English parser returns
the generating fields, provided the fields pass the English validators,
contain no `$`, and the serialized string is unchanged by trimming. -/
theorem parse_gen_en (addr code pwd : Str)
    (h1 : validateSMDPAddress addr = true)
    (h2 : validateActivationCode code = true)
    (hna : containsCh addr '$' = false)
    (hnc : containsCh code '$' = false)
    (hnp : containsCh pwd '$' = false)
    (ht : jsTrim (generateLPAString addr code pwd) = generateLPAString addr code pwd) :
    parseESIMInput (generateLPAString addr code pwd) = .ok addr code pwd := by
  have hcadd := beq_false_of_not_contains hna
  have hccode := beq_false_of_not_contains hnc
  have hcpwd := beq_false_of_not_contains hnp
  by_cases hp : pwd = []
  · subst hp
    have hgen : generateLPAString addr code [] = lpa1D ++ (addr ++ '$' :: code) := by
      simp [generateLPAString, List.append_assoc]
    have hstart : startsW lpaD (jsTrim (generateLPAString addr code [])) = true := by
      rw [ht, hgen,
        show lpa1D ++ (addr ++ '$' :: code) =
          lpaD ++ ('1' :: '$' :: (addr ++ '$' :: code)) from rfl]
      exact startsW_append _ _
    rw [parseESIMInput_lpaBranch _ hstart, ht, hgen]
    have hdrop : (lpa1D ++ (addr ++ '$' :: code)).drop 4 =
        '1' :: '$' :: (addr ++ '$' :: code) := rfl
    have hsp : splitCh '$' ('1' :: '$' :: (addr ++ '$' :: code)) = [['1'], addr, code] := by
      rw [show ('1' :: '$' :: (addr ++ '$' :: code) : Str) =
            ['1'] ++ '$' :: (addr ++ '$' :: code) from rfl,
          splitCh_append '$' ['1'] _ (by decide),
          splitCh_append '$' addr code hcadd,
          splitCh_all_not '$' code hccode]
    simp only [hdrop, hsp]
    simp [finishEn, h1, h2]
  · have hpe : pwd.isEmpty = false := by
      rcases pwd with _ | ⟨x, xs⟩
      · exact absurd rfl hp
      · rfl
    have hgen : generateLPAString addr code pwd =
        lpa1D ++ (addr ++ '$' :: (code ++ '$' :: pwd)) := by
      simp [generateLPAString, hpe, List.append_assoc]
    have hstart : startsW lpaD (jsTrim (generateLPAString addr code pwd)) = true := by
      rw [ht, hgen,
        show lpa1D ++ (addr ++ '$' :: (code ++ '$' :: pwd)) =
          lpaD ++ ('1' :: '$' :: (addr ++ '$' :: (code ++ '$' :: pwd))) from rfl]
      exact startsW_append _ _
    rw [parseESIMInput_lpaBranch _ hstart, ht, hgen]
    have hdrop : (lpa1D ++ (addr ++ '$' :: (code ++ '$' :: pwd))).drop 4 =
        '1' :: '$' :: (addr ++ '$' :: (code ++ '$' :: pwd)) := rfl
    have hsp : splitCh '$' ('1' :: '$' :: (addr ++ '$' :: (code ++ '$' :: pwd))) =
        [['1'], addr, code, pwd] := by
      rw [show ('1' :: '$' :: (addr ++ '$' :: (code ++ '$' :: pwd)) : Str) =
            ['1'] ++ '$' :: (addr ++ '$' :: (code ++ '$' :: pwd)) from rfl,
          splitCh_append '$' ['1'] _ (by decide),
          splitCh_append '$' addr _ hcadd,
          splitCh_append '$' code pwd hccode,
          splitCh_all_not '$' pwd hcpwd]
    simp only [hdrop, hsp]
    simp [finishEn, h1, h2]

theorem mem_of_getLast?_eq_some {l : Str} {x : Char} (h : l.getLast? = some x) :
    x ∈ l := by
  obtain ⟨hne, rfl⟩ := List.mem_getLast?_eq_getLast (Option.mem_def.mpr h)
  exact List.getLast_mem hne

/-- Every character of a generated canonical LPA string is a prefix character
or a field character. -/
theorem mem_gen (addr code pwd : Str) (x : Char)
    (hx : x ∈ generateLPAString addr code pwd) :
    x ∈ lpa1D ∨ x = '$' ∨ x ∈ addr ∨ x ∈ code ∨ x ∈ pwd := by
  unfold generateLPAString at hx
  split at hx
  · rcases List.mem_append.mp hx with hx1 | hx4
    · rcases List.mem_append.mp hx1 with hx2 | hx3
      · rcases List.mem_append.mp hx2 with hx5 | hx6
        · exact Or.inl hx5
        · exact Or.inr (Or.inr (Or.inl hx6))
      · simp only [List.mem_singleton] at hx3
        exact Or.inr (Or.inl hx3)
    · exact Or.inr (Or.inr (Or.inr (Or.inl hx4)))
  · rcases List.mem_append.mp hx with hx1 | hx6
    · rcases List.mem_append.mp hx1 with hx2 | hx5
      · rcases List.mem_append.mp hx2 with hx3 | hx4
        · rcases List.mem_append.mp hx3 with hx7 | hx8
          · rcases List.mem_append.mp hx7 with hx9 | hx10
            · exact Or.inl hx9
            · exact Or.inr (Or.inr (Or.inl hx10))
          · simp only [List.mem_singleton] at hx8
            exact Or.inr (Or.inl hx8)
        · exact Or.inr (Or.inr (Or.inr (Or.inl hx4)))
      · simp only [List.mem_singleton] at hx5
        exact Or.inr (Or.inl hx5)
    · exact Or.inr (Or.inr (Or.inr (Or.inr hx6)))

/-- Trim identity for a generated canonical LPA string whose fields contain
no whitespace. -/
theorem jsTrim_gen_eq_self (addr code pwd : Str)
    (hwa : addr.all (fun c => !isWS c) = true)
    (hwc : code.all (fun c => !isWS c) = true)
    (hwp : pwd.all (fun c => !isWS c) = true) :
    jsTrim (generateLPAString addr code pwd) = generateLPAString addr code pwd := by
  have hall : ∀ x ∈ generateLPAString addr code pwd, isWS x = false := by
    intro x hx
    rcases mem_gen addr code pwd x hx with h | h | h | h | h
    · rw [show lpa1D = ['L', 'P', 'A', ':', '1', '$'] from rfl] at h
      simp only [List.mem_cons, List.not_mem_nil, or_false] at h
      rcases h with rfl | rfl | rfl | rfl | rfl | rfl <;> decide
    · subst h; decide
    · exact ws_false_of_all hwa x h
    · exact ws_false_of_all hwc x h
    · exact ws_false_of_all hwp x h
  refine jsTrim_eq_self _ ?_ ?_
  · intro x hx
    have hh : (generateLPAString addr code pwd).head? = some 'L' := by
      unfold generateLPAString
      split <;> rfl
    rw [hh] at hx
    cases hx
    decide
  · intro x hx
    exact hall x (mem_of_getLast?_eq_some hx)

theorem gen_eq_of_empty (addr code : Str) :
    generateLPAString addr code [] = lpa1D ++ (addr ++ '$' :: code) := by
  simp [generateLPAString, List.append_assoc]

theorem gen_eq_of_ne (addr code pwd : Str) (hp : pwd ≠ []) :
    generateLPAString addr code pwd = lpa1D ++ (addr ++ '$' :: (code ++ '$' :: pwd)) := by
  have hpe : pwd.isEmpty = false := by
    rcases pwd with _ | ⟨x, xs⟩
    · exact absurd rfl hp
    · rfl
  simp [generateLPAString, hpe, List.append_assoc]

theorem gen_no_ws (addr code pwd : Str)
    (hwa : addr.all (fun c => !isWS c) = true)
    (hwc : code.all (fun c => !isWS c) = true)
    (hwp : pwd.all (fun c => !isWS c) = true) :
    ∀ x ∈ generateLPAString addr code pwd, isWS x = false := by
  intro x hx
  rcases mem_gen addr code pwd x hx with h | h | h | h | h
  · rw [show lpa1D = ['L', 'P', 'A', ':', '1', '$'] from rfl] at h
    simp only [List.mem_cons, List.not_mem_nil, or_false] at h
    rcases h with rfl | rfl | rfl | rfl | rfl | rfl <;> decide
  · subst h; decide
  · exact ws_false_of_all hwa x h
  · exact ws_false_of_all hwc x h
  · exact ws_false_of_all hwp x h

/-- Parsing a generated canonical LPA string with the Chinese parser returns
the generating fields, provided the fields pass the Chinese validators and
contain neither `$` nor whitespace. -/
theorem parse_gen_zh (addr code pwd : Str)
    (h3 : isValidSmdpAddress addr = true)
    (h4 : isValidActivationCode code = true)
    (hna : containsCh addr '$' = false)
    (hnc : containsCh code '$' = false)
    (hnp : containsCh pwd '$' = false)
    (hwa : addr.all (fun c => !isWS c) = true)
    (hwc : code.all (fun c => !isWS c) = true)
    (hwp : pwd.all (fun c => !isWS c) = true) :
    parseEsimInput (generateLPAString addr code pwd) = .ok addr code pwd := by
  have hcadd := beq_false_of_not_contains hna
  have hccode := beq_false_of_not_contains hnc
  have hcpwd := beq_false_of_not_contains hnp
  have ht := jsTrim_gen_eq_self addr code pwd hwa hwc hwp
  have hfil : (generateLPAString addr code pwd).filter (fun c => !isWS c) =
      generateLPAString addr code pwd := by
    rw [List.filter_eq_self]
    intro a ha
    simp [gen_no_ws addr code pwd hwa hwc hwp a ha]
  by_cases hp : pwd = []
  · subst hp
    have hgen := gen_eq_of_empty addr code
    have hstart : startsW lpa1D
        ((jsTrim (generateLPAString addr code [])).filter (fun c => !isWS c)) = true := by
      rw [ht, hfil, hgen]
      exact startsW_append _ _
    rw [parseEsimInput_lpaBranch _ hstart, ht, hfil, hgen]
    have hdrop : (lpa1D ++ (addr ++ '$' :: code)).drop 6 = addr ++ '$' :: code := rfl
    have hsp : splitCh '$' (addr ++ '$' :: code) = [addr, code] := by
      rw [splitCh_append '$' addr code hcadd, splitCh_all_not '$' code hccode]
    simp only [hdrop, hsp]
    simp [finishZh, h3, h4]
  · have hgen := gen_eq_of_ne addr code pwd hp
    have hstart : startsW lpa1D
        ((jsTrim (generateLPAString addr code pwd)).filter (fun c => !isWS c)) = true := by
      rw [ht, hfil, hgen]
      exact startsW_append _ _
    rw [parseEsimInput_lpaBranch _ hstart, ht, hfil, hgen]
    have hdrop : (lpa1D ++ (addr ++ '$' :: (code ++ '$' :: pwd))).drop 6 =
        addr ++ '$' :: (code ++ '$' :: pwd) := rfl
    have hsp : splitCh '$' (addr ++ '$' :: (code ++ '$' :: pwd)) = [addr, code, pwd] := by
      rw [splitCh_append '$' addr _ hcadd, splitCh_append '$' code pwd hccode,
        splitCh_all_not '$' pwd hcpwd]
    simp only [hdrop, hsp]
    simp [finishZh, h3, h4]

/-- C1 counterexample: the spec's code pattern is `[A-Za-z0-9-]{5,50}`, so the
5-character code `ABC12` belongs to a valid profile, but the cited English
parser validates codes against `[A-Za-z0-9-]{8,}` and rejects the serialized
profile, breaking the round trip. -/
theorem C1_cex :
    parseESIMInput (generateLPAString "t-mobile.idemia.io".data "ABC12".data []) =
      ParseResult.err PErr.invalidActivationCode ∧
    "ABC12".data.all isCodeChar = true ∧ "ABC12".data.length = 5 := by decide

/-- C1 amended: the round trip `parse (serialize p) = p` holds for the cited
English pair (`generateLPAString`/`parseESIMInput`) when the fields pass that
variant's own validators (domain pattern; code pattern `[A-Za-z0-9-]{8,}` on
the trimmed code, not the spec's `{5,50}`), no field contains `$`, and the
serialized string is unchanged by trimming (in particular the confirmation
code has no trailing whitespace, which the claim did not require). -/
theorem C1_roundTrip (addr code pwd : Str)
    (h1 : validateSMDPAddress addr = true)
    (h2 : validateActivationCode code = true)
    (hna : containsCh addr '$' = false)
    (hnc : containsCh code '$' = false)
    (hnp : containsCh pwd '$' = false)
    (ht : jsTrim (generateLPAString addr code pwd) = generateLPAString addr code pwd) :
    parseESIMInput (generateLPAString addr code pwd) = .ok addr code pwd :=
  parse_gen_en addr code pwd h1 h2 hna hnc hnp ht

theorem C1_roundTrip_witness :
    parseESIMInput (generateLPAString "t-mobile.idemia.io".data
        "1BCH0-T6TKQ-PWCXS-FM6OD".data "1234".data) =
      ParseResult.ok "t-mobile.idemia.io".data "1BCH0-T6TKQ-PWCXS-FM6OD".data
        "1234".data :=
  C1_roundTrip "t-mobile.idemia.io".data "1BCH0-T6TKQ-PWCXS-FM6OD".data "1234".data
    (by decide) (by decide) (by decide) (by decide) (by decide) (by decide)

/-- C4 counterexample: neither cited parser behaves as claimed on
`LPA:2$t-mobile.idemia.io$ABC12345` (first segment not `1`).  The claim
demands the MalformedLPA failure; the English parser skips the version
segment unchecked and *succeeds*, while the Chinese parser does not strip a
bare `LPA:` prefix at all and fails with InvalidAddress (it takes
`smdpAddress = LPA:2`), not MalformedLPA. -/
theorem C4_cex :
    parseESIMInput "LPA:2$t-mobile.idemia.io$ABC12345".data =
      ParseResult.ok "t-mobile.idemia.io".data "ABC12345".data [] ∧
    parseESIMInput "LPA:2$t-mobile.idemia.io$ABC12345".data ≠
      ParseResult.err PErr.malformedLPA ∧
    parseEsimInput "LPA:2$t-mobile.idemia.io$ABC12345".data =
      ParseResult.err PErr.invalidAddress := by decide

/-- C4 amended, covering both cited variants.  English (`parseESIMInput`):
when the trimmed input starts with `LPA:` it strips the prefix and splits on
`$`; with at least 3 segments it extracts `smdpAddress` from segment 1,
`activationCode` from segment 2 and `confirmationCode` from segment 3 (or
empty) *regardless of the value of segment 0* — the version segment is
skipped without being compared to `1`; with fewer than 3 segments it returns
MalformedLPA.  Chinese (`parseEsimInput`): only the exact `LPA:1$` start is
recognised as a prefix (the version is checked as part of the prefix); it
strips 6 characters and splits, extracting segments 0/1/2-or-empty when at
least 2 segments remain and returning MalformedLPA otherwise; input starting
with `LPA:` but not `LPA:1$` is not stripped at all (see the
counterexample). -/
theorem C4_lpaStructure (input : Str) :
    (startsW lpaD (jsTrim input) = true →
      parseESIMInput input =
        (let parts := splitCh '$' ((jsTrim input).drop 4)
         if parts.length < 3 then .err .malformedLPA
         else finishEn (parts.getD 1 []) (parts.getD 2 []) (parts.getD 3 []))) ∧
    (startsW lpa1D ((jsTrim input).filter (fun c => !isWS c)) = true →
      parseEsimInput input =
        (let parts := splitCh '$' (((jsTrim input).filter (fun c => !isWS c)).drop 6)
         if parts.length < 2 then .err .malformedLPA
         else finishZh (parts.getD 0 []) (parts.getD 1 []) (parts.getD 2 []))) :=
  ⟨fun h => parseESIMInput_lpaBranch input h,
   fun h => parseEsimInput_lpaBranch input h⟩

theorem C4_lpaStructure_witness :
    parseESIMInput "LPA:1$x$y".data = ParseResult.err PErr.invalidAddress ∧
    parseEsimInput "LPA:1$x$y".data = ParseResult.err PErr.invalidAddress :=
  ⟨((C4_lpaStructure "LPA:1$x$y".data).1 (by decide)).trans (by decide),
   ((C4_lpaStructure "LPA:1$x$y".data).2 (by decide)).trans (by decide)⟩

/-- C5 counterexample: the duplicated parser variants are not equivalent.
The English variant parses the space-delimited input
`t-mobile.idemia.io ABC12345`; the Chinese variant first deletes all
whitespace and then finds no separator, so it fails. -/
theorem C5_cex :
    parseESIMInput "t-mobile.idemia.io ABC12345".data =
      ParseResult.ok "t-mobile.idemia.io".data "ABC12345".data [] ∧
    parseEsimInput "t-mobile.idemia.io ABC12345".data =
      ParseResult.err PErr.unrecognizedFormat := by decide

/-- C5 amended: the two parser variants do agree on canonical LPA strings
`LPA:1$addr$code` (optionally `$pwd`) whose fields pass both variants'
validators and contain neither `$` nor whitespace: both succeed with the same
three fields.  (On whitespace-delimited inputs, and on fields accepted by
only one variant's validators, they differ — see the counterexample.) -/
theorem C5_agreeCanonical (addr code pwd : Str)
    (h1 : validateSMDPAddress addr = true)
    (h2 : validateActivationCode code = true)
    (h3 : isValidSmdpAddress addr = true)
    (h4 : isValidActivationCode code = true)
    (hna : containsCh addr '$' = false)
    (hnc : containsCh code '$' = false)
    (hnp : containsCh pwd '$' = false)
    (hwa : addr.all (fun c => !isWS c) = true)
    (hwc : code.all (fun c => !isWS c) = true)
    (hwp : pwd.all (fun c => !isWS c) = true) :
    parseESIMInput (generateLPAString addr code pwd) = .ok addr code pwd ∧
    parseEsimInput (generateLPAString addr code pwd) = .ok addr code pwd :=
  ⟨parse_gen_en addr code pwd h1 h2 hna hnc hnp
      (jsTrim_gen_eq_self addr code pwd hwa hwc hwp),
   parse_gen_zh addr code pwd h3 h4 hna hnc hnp hwa hwc hwp⟩

theorem C5_agreeCanonical_witness :
    parseESIMInput (generateLPAString "t-mobile.idemia.io".data "ABC12345".data []) =
      ParseResult.ok "t-mobile.idemia.io".data "ABC12345".data [] ∧
    parseEsimInput (generateLPAString "t-mobile.idemia.io".data "ABC12345".data []) =
      ParseResult.ok "t-mobile.idemia.io".data "ABC12345".data [] :=
  C5_agreeCanonical "t-mobile.idemia.io".data "ABC12345".data []
    (by decide) (by decide) (by decide) (by decide) (by decide) (by decide)
    (by decide) (by decide) (by decide) (by decide)

/-- The separator loop equals a first-match search over the separator list:
the first separator that is contained in the input and whose split yields at
least two non-blank segments wins. -/
theorem trySeps_eq_find (seps : List Char) (s : Str) :
    trySeps seps s =
      match seps.find? (fun sep => containsCh s sep &&
          decide (2 ≤ ((splitCh sep s).filter (fun q => !(jsTrim q).isEmpty)).length)) with
      | some sep =>
        let parts := (splitCh sep s).filter (fun q => !(jsTrim q).isEmpty)
        some (jsTrim (parts.getD 0 []), jsTrim (parts.getD 1 []),
          match parts[2]? with
          | some q => jsTrim q
          | none => [])
      | none => none := by
  induction seps with
  | nil => rfl
  | cons sep rest ih =>
    by_cases hc : containsCh s sep = true
    · by_cases hl : 2 ≤ ((splitCh sep s).filter (fun q => !(jsTrim q).isEmpty)).length
      · unfold trySeps
        rw [if_pos hc, if_pos hl, List.find?_cons_of_pos _ (by simp [hc, hl])]
      · unfold trySeps
        rw [if_pos hc, if_neg hl, List.find?_cons_of_neg _ (by simp [hc, hl]), ih]
    · have hc' : containsCh s sep = false := by
        cases hv : containsCh s sep
        · rfl
        · exact absurd hv hc
      unfold trySeps
      rw [if_neg (by simp [hc']), List.find?_cons_of_neg _ (by simp [hc']), ih]

/-- C6 counterexample: the claim's fixed delimiter list (space, comma, pipe,
semicolon, tab, newline) is false for the cited Chinese parser, whose list is
pipe, semicolon, colon, comma, space.  The input `a.io:ABCDE123` contains no
`$` and none of the claimed delimiters, so the claim demands the
UnrecognizedFormat failure — but `parseEsimInput` splits on the extra `:`
delimiter and succeeds. -/
theorem C6_cex :
    parseEsimInput "a.io:ABCDE123".data =
      ParseResult.ok "a.io".data "ABCDE123".data [] ∧
    sepsEn.all (fun sep => !containsCh "a.io:ABCDE123".data sep) = true ∧
    containsCh "a.io:ABCDE123".data '$' = false := by decide

/-- C6 amended, covering both cited variants.  English (`parseESIMInput`):
for non-empty trimmed input with no `$` and no `LPA:` start, the claimed
order space, comma, pipe, semicolon, tab, newline (`sepsEn`) is tried; the
first separator contained in the input whose split yields at least 2
non-blank segments determines the fields (segment 0 = address, segment 1 =
code, segment 2 optional confirmation, each trimmed, then validated), else
UnrecognizedFormat.  Chinese (`parseEsimInput`): all whitespace is deleted
during cleaning, and the order is pipe, semicolon, colon, comma, space
(`sepsZh`) — colon is an extra delimiter and the whitespace delimiters can
never match — with the same first-match rule and fallback failure. -/
theorem C6_sepFallback (input : Str) :
    (((jsTrim input).isEmpty = false →
      startsW lpaD (jsTrim input) = false →
      containsCh (jsTrim input) '$' = false →
      parseESIMInput input =
        match sepsEn.find? (fun sep => containsCh (jsTrim input) sep &&
            decide (2 ≤ ((splitCh sep (jsTrim input)).filter
              (fun q => !(jsTrim q).isEmpty)).length)) with
        | some sep =>
          let parts := (splitCh sep (jsTrim input)).filter (fun q => !(jsTrim q).isEmpty)
          finishEn (jsTrim (parts.getD 0 [])) (jsTrim (parts.getD 1 []))
            (match parts[2]? with
             | some q => jsTrim q
             | none => [])
        | none => .err .unrecognizedFormat)) ∧
    ((((jsTrim input).filter (fun c => !isWS c)).isEmpty = false →
      startsW lpa1D ((jsTrim input).filter (fun c => !isWS c)) = false →
      containsCh ((jsTrim input).filter (fun c => !isWS c)) '$' = false →
      parseEsimInput input =
        match sepsZh.find? (fun sep =>
            containsCh ((jsTrim input).filter (fun c => !isWS c)) sep &&
            decide (2 ≤ ((splitCh sep ((jsTrim input).filter (fun c => !isWS c))).filter
              (fun q => !(jsTrim q).isEmpty)).length)) with
        | some sep =>
          let parts := (splitCh sep ((jsTrim input).filter (fun c => !isWS c))).filter
            (fun q => !(jsTrim q).isEmpty)
          finishZh (jsTrim (parts.getD 0 [])) (jsTrim (parts.getD 1 []))
            (match parts[2]? with
             | some q => jsTrim q
             | none => [])
        | none => .err .unrecognizedFormat)) := by
  constructor
  · intro h0 h1 h2
    simp only [parseESIMInput, h0, h1, h2, Bool.false_eq_true, if_false]
    rw [trySeps_eq_find]
    cases hf : sepsEn.find? (fun sep => containsCh (jsTrim input) sep &&
        decide (2 ≤ ((splitCh sep (jsTrim input)).filter
          (fun q => !(jsTrim q).isEmpty)).length)) with
    | none => simp
    | some sep => simp
  · intro h0 h1 h2
    simp only [parseEsimInput, h0, h1, h2, Bool.false_eq_true, if_false]
    rw [trySeps_eq_find]
    cases hf : sepsZh.find? (fun sep =>
        containsCh ((jsTrim input).filter (fun c => !isWS c)) sep &&
        decide (2 ≤ ((splitCh sep ((jsTrim input).filter (fun c => !isWS c))).filter
          (fun q => !(jsTrim q).isEmpty)).length)) with
    | none => simp
    | some sep => simp

theorem C6_sepFallback_witness :
    parseESIMInput "t-mobile.idemia.io ABC12345".data =
      ParseResult.ok "t-mobile.idemia.io".data "ABC12345".data [] ∧
    parseEsimInput "t-mobile.idemia.io ABC12345".data =
      ParseResult.err PErr.unrecognizedFormat :=
  ⟨((C6_sepFallback "t-mobile.idemia.io ABC12345".data).1
      (by decide) (by decide) (by decide)).trans (by decide),
   ((C6_sepFallback "t-mobile.idemia.io ABC12345".data).2
      (by decide) (by decide) (by decide)).trans (by decide)⟩

/-- Rule 2 of the repair advisor, stated over an already-trimmed string `cd`:
for input trimming to `cd` that starts with `LPA:` but not `LPA:1$`, if
`LPA:1$` + content re-parses successfully then the advisor returns success
with exactly that fixed string. -/
theorem tryFix_rule2 (cd : Str)
    (hws : ∀ x, cd.getLast? = some x → isWS x = false)
    (h0 : startsW lpaD cd = true) (h1 : startsW lpa1D cd = false)
    (a c p : Str)
    (h2 : parseESIMInput (lpa1D ++ cd.drop 4) = .ok a c p)
    (input : Str) (hcd : jsTrim input = cd) :
    tryFixQRCode input = .fixed (lpa1D ++ cd.drop 4) .missingVersion := by
  have hdec : cd = lpaD ++ cd.drop 4 := by
    have h := startsW_decomp lpaD cd h0
    rw [show lpaD.length = 4 from rfl] at h
    exact h
  have hcontains : containsCh (cd.drop 4) '$' = true := by
    cases hv : containsCh (cd.drop 4) '$'
    · exfalso
      -- with no dollar in the content, the re-parse cannot succeed
      have htrim : jsTrim (lpa1D ++ cd.drop 4) = lpa1D ++ cd.drop 4 := by
        refine jsTrim_eq_self _ ?_ ?_
        · intro x hx
          rw [show (lpa1D ++ cd.drop 4).head? = some 'L' from rfl] at hx
          cases hx
          decide
        · intro x hx
          rcases hcc : cd.drop 4 with _ | ⟨y, ys⟩
          · rw [hcc] at hx
            have he : (lpa1D ++ ([] : Str)).getLast? = some '$' := by
              rw [List.append_nil]
              decide
            rw [he] at hx
            cases hx
            decide
          · rw [hcc, List.getLast?_append_cons] at hx
            refine hws x ?_
            conv_lhs => rw [hdec, hcc]
            rw [List.getLast?_append_cons]
            exact hx
      have hstart2 : startsW lpaD (jsTrim (lpa1D ++ cd.drop 4)) = true := by
        rw [htrim,
          show lpa1D ++ cd.drop 4 = lpaD ++ ('1' :: '$' :: cd.drop 4) from rfl]
        exact startsW_append _ _
      rw [parseESIMInput_lpaBranch _ hstart2, htrim] at h2
      have hdrop : (lpa1D ++ cd.drop 4).drop 4 = '1' :: '$' :: cd.drop 4 := rfl
      rw [hdrop] at h2
      have hsp : splitCh '$' ('1' :: '$' :: cd.drop 4) = [['1'], cd.drop 4] := by
        rw [show ('1' :: '$' :: cd.drop 4 : Str) = ['1'] ++ '$' :: cd.drop 4 from rfl,
          splitCh_append '$' ['1'] _ (by decide),
          splitCh_all_not '$' _ (beq_false_of_not_contains hv)]
      rw [hsp] at h2
      simp at h2
    · rfl
  have hlen : 2 ≤ (splitCh '$' (cd.drop 4)).length :=
    splitCh_length_ge_two '$' (cd.drop 4) hcontains
  simp only [tryFixQRCode, hcd]
  have hc1 : (!startsW lpaD cd && containsCh cd '$' &&
      decide (2 ≤ (splitCh '$' cd).length)) = false := by
    simp [h0]
  have hc2 : (startsW lpaD cd && !startsW lpa1D cd && containsCh (cd.drop 4) '$' &&
      decide (2 ≤ (splitCh '$' (cd.drop 4)).length)) = true := by
    simp [h0, h1, hcontains, hlen]
  simp only [hc1, Bool.false_eq_true, if_false, hc2, if_true]

/-- C7 confirmed: for input whose trimmed form starts with `LPA:` but not
`LPA:1$`, whenever inserting `1$` after the prefix produces a string that
re-parses successfully, the repair advisor reports success with exactly that
fixed string and the problem "Missing version number" — rule 2 of
`tryFixQRCode`.  The witness instantiates the spec's example
`LPA:t-mobile.idemia.io$ABC12345`. -/
theorem C7_missingVersionRepair (input a c p : Str)
    (h0 : startsW lpaD (jsTrim input) = true)
    (h1 : startsW lpa1D (jsTrim input) = false)
    (h2 : parseESIMInput (lpa1D ++ (jsTrim input).drop 4) = .ok a c p) :
    tryFixQRCode input = .fixed (lpa1D ++ (jsTrim input).drop 4) .missingVersion :=
  tryFix_rule2 (jsTrim input) (jsTrim_getLast_not_ws input) h0 h1 a c p h2 input rfl

theorem C7_missingVersionRepair_witness :
    tryFixQRCode "LPA:t-mobile.idemia.io$ABC12345".data =
      FixResult.fixed "LPA:1$t-mobile.idemia.io$ABC12345".data FixProblem.missingVersion ∧
    parseESIMInput "LPA:1$t-mobile.idemia.io$ABC12345".data =
      ParseResult.ok "t-mobile.idemia.io".data "ABC12345".data [] :=
  ⟨(C7_missingVersionRepair "LPA:t-mobile.idemia.io$ABC12345".data
      "t-mobile.idemia.io".data "ABC12345".data []
      (by decide) (by decide) (by decide)).trans (by decide),
   by decide⟩

theorem containsCh_eq_true_iff (l : Str) (c : Char) :
    containsCh l c = true ↔ c ∈ l := by
  simp [containsCh, List.any_eq_true]

/-- Rule 3 of the repair advisor (field reorganization), packaged: when rules
1 and 2 do not fire and the delimiter split has at least two segments, the
result is determined by the three `find?` scans of the source. -/
theorem tryFix_rule3 (input : Str) (cd : Str) (hcd : jsTrim input = cd)
    (hc1 : (!startsW lpaD cd && containsCh cd '$' &&
      decide (2 ≤ (splitCh '$' cd).length)) = false)
    (hc2 : (startsW lpaD cd && !startsW lpa1D cd && containsCh (cd.drop 4) '$' &&
      decide (2 ≤ (splitCh '$' (cd.drop 4)).length)) = false)
    (segs : List Str) (hseg : splitBy isFixDelim (replaceFirst lpaD [] cd) = segs)
    (hlen : 2 ≤ segs.length)
    (addr code : Str)
    (hf1 : segs.find? (fun q => containsCh q '.') = some addr)
    (hf2 : segs.find? (fun q => fixCodePat q && !containsCh q '.') = some code)
    (res : FixResult)
    (hf3 : (match segs.find? (fun q => !q.isEmpty && !(q == addr) && !(q == code) &&
        !(q == ['1'])) with
      | some password =>
        FixResult.fixed (lpa1D ++ addr ++ ['$'] ++ code ++ ['$'] ++ password)
          FixProblem.reorganized
      | none => FixResult.fixed (lpa1D ++ addr ++ ['$'] ++ code) FixProblem.reorganized) =
        res) :
    tryFixQRCode input = res := by
  simp only [tryFixQRCode, hcd, hc1, Bool.false_eq_true, if_false, hc2, hseg]
  rw [if_pos hlen, hf1, hf2]
  simpa using hf3

/-- C10 confirmed: in the repair advisor's reorganization rule, a leftover
segment equal to `1` is never emitted as a confirmation code: if the
delimiter-split segments consist only of a dot-containing address candidate,
a pattern-matching code candidate, segments equal to `1`, and blanks, the
reconstructed string is `LPA:1$addr$code` with no confirmation field. -/
theorem C10_noVersionAsPwd (input addr code : Str) (segs : List Str)
    (hseg : splitBy isFixDelim (replaceFirst lpaD [] (jsTrim input)) = segs)
    (hr1 : (!startsW lpaD (jsTrim input) && containsCh (jsTrim input) '$' &&
      decide (2 ≤ (splitCh '$' (jsTrim input)).length)) = false)
    (hr2 : (startsW lpaD (jsTrim input) && !startsW lpa1D (jsTrim input) &&
      containsCh ((jsTrim input).drop 4) '$' &&
      decide (2 ≤ (splitCh '$' ((jsTrim input).drop 4)).length)) = false)
    (hlen : 2 ≤ segs.length)
    (haddr : addr ∈ segs) (hdot : containsCh addr '.' = true)
    (hcodem : code ∈ segs) (hcp : fixCodePat code = true)
    (hcd0 : containsCh code '.' = false)
    (hall : ∀ q ∈ segs, q = addr ∨ q = code ∨ q = ['1'] ∨ q = []) :
    tryFixQRCode input = .fixed (lpa1D ++ addr ++ ['$'] ++ code) .reorganized := by
  have hf1 : segs.find? (fun q => containsCh q '.') = some addr := by
    cases hf : segs.find? (fun q => containsCh q '.') with
    | none => exact absurd hdot (List.find?_eq_none.mp hf addr haddr)
    | some q =>
      have hqm := List.mem_of_find?_eq_some hf
      have hpq := List.find?_some hf
      rcases hall q hqm with rfl | rfl | rfl | rfl
      · rfl
      · rw [hcd0] at hpq
        exact Bool.noConfusion hpq
      · exact absurd hpq (by decide)
      · exact absurd hpq (by decide)
  have hf2 : segs.find? (fun q => fixCodePat q && !containsCh q '.') = some code := by
    cases hf : segs.find? (fun q => fixCodePat q && !containsCh q '.') with
    | none =>
      refine absurd ?_ (List.find?_eq_none.mp hf code hcodem)
      simp [hcp, hcd0]
    | some q =>
      have hqm := List.mem_of_find?_eq_some hf
      have hpq := List.find?_some hf
      rcases hall q hqm with rfl | rfl | rfl | rfl
      · rw [Bool.and_eq_true, hdot] at hpq
        exact Bool.noConfusion hpq.2
      · rfl
      · exact absurd hpq (by decide)
      · exact absurd hpq (by decide)
  refine tryFix_rule3 input (jsTrim input) rfl hr1 hr2 segs hseg hlen addr code hf1 hf2 _ ?_
  have hf3 : segs.find? (fun q => !q.isEmpty && !(q == addr) && !(q == code) &&
      !(q == ['1'])) = none := by
    rw [List.find?_eq_none]
    intro q hq
    rcases hall q hq with rfl | rfl | rfl | rfl <;> simp
  rw [hf3]

theorem C10_noVersionAsPwd_witness :
    tryFixQRCode "LPA:1$ABCDEFGH$a.io$1".data =
      FixResult.fixed "LPA:1$a.io$ABCDEFGH".data FixProblem.reorganized :=
  (C10_noVersionAsPwd "LPA:1$ABCDEFGH$a.io$1".data "a.io".data "ABCDEFGH".data
    ["1".data, "ABCDEFGH".data, "a.io".data, "1".data]
    (by decide) (by decide) (by decide) (by decide) (by decide) (by decide)
    (by decide) (by decide) (by decide) (by decide)).trans (by decide)

/-- C8 counterexample: repair is not idempotent on canonical strings for
either cited advisor.  `LPA:1$t-mobile.idemia.io$ABCD1234$1` is canonical
with valid fields — the parser accepts it, returning confirmation code `1` —
yet the English advisor's reorganization rule drops the confirmation segment
`1` (its password scan skips segments equal to `1`), returning a *different*
fixed string.  The EsimSwapApp advisor fails outright on the canonical
`LPA:1$t-mobile.idemia.io$ABCD1234`: its reorganization filter requires a
code segment longer than 10 characters, so the 8-character code matches
nothing and it reports failure instead of returning the input. -/
theorem C8_cex :
    tryFixQRCode "LPA:1$t-mobile.idemia.io$ABCD1234$1".data =
      FixResult.fixed "LPA:1$t-mobile.idemia.io$ABCD1234".data FixProblem.reorganized ∧
    "LPA:1$t-mobile.idemia.io$ABCD1234".data ≠
      "LPA:1$t-mobile.idemia.io$ABCD1234$1".data ∧
    parseESIMInput "LPA:1$t-mobile.idemia.io$ABCD1234$1".data =
      ParseResult.ok "t-mobile.idemia.io".data "ABCD1234".data "1".data ∧
    tryFixQRCodeApp "LPA:1$t-mobile.idemia.io$ABCD1234".data =
      AppFixResult.failed FixProblem.unrecognized := by decide

theorem all_not_ws_fmt (l : Str) (h : ∀ x ∈ l, isWS x = false) :
    l.all (fun c => !isWS c) = true := by
  rw [List.all_eq_true]
  intro x hx
  simp [h x hx]

theorem ws_of_fixDelim_false (c : Char) (h : isFixDelim c = false) : isWS c = false := by
  cases hw : isWS c
  · rfl
  · exfalso
    have : isFixDelim c = true := by simp [isFixDelim, hw]
    rw [h] at this
    exact Bool.noConfusion this

/-- Idempotence of the EsimSwapApp repair advisor on password-free canonical
strings whose address is longer than 5 characters and whose code passes the
reorganization filter (length over 10, `[A-Za-z0-9-]`). -/
theorem tryFixApp_idem (addr code : Str)
    (hdom : domMatch addr = true)
    (hlen5 : 5 < addr.length)
    (hcr : codeRuleApp code = true) :
    tryFixQRCodeApp (generateLPAString addr code []) =
      .ok .reorganized (generateLPAString addr code []) addr code none
        (generateLPAString addr code []) := by
  obtain ⟨hdall, hdot⟩ := domMatch_chars addr hdom
  have haws : ∀ x ∈ addr, isWS x = false :=
    fun x hx => isDomChar_not_ws x (hdall x hx)
  have hadollar : ∀ x ∈ addr, (x == '$') = false :=
    fun x hx => isDomChar_not_dollar x (hdall x hx)
  have hcall : ∀ x ∈ code, isCodeChar x = true := by
    have h := hcr
    simp only [codeRuleApp, Bool.and_eq_true, List.all_eq_true] at h
    exact fun x hx => h.2 x hx
  have hcws : ∀ x ∈ code, isWS x = false :=
    fun x hx => isCodeChar_not_ws x (hcall x hx)
  have hcdollar : ∀ x ∈ code, (x == '$') = false :=
    fun x hx => isCodeChar_not_dollar x (hcall x hx)
  have hcdot : containsCh code '.' = false := by
    cases hv : containsCh code '.'
    · rfl
    · exact absurd (hcall '.' ((containsCh_eq_true_iff code '.').mp hv)) (by decide)
  have ht := jsTrim_gen_eq_self addr code [] (all_not_ws_fmt addr haws)
    (all_not_ws_fmt code hcws) (by decide)
  have hgen := gen_eq_of_empty addr code
  have hst : startsW lpaD (generateLPAString addr code []) = true := by
    rw [hgen, show lpa1D ++ (addr ++ '$' :: code) =
      lpaD ++ ('1' :: '$' :: (addr ++ '$' :: code)) from rfl]
    exact startsW_append _ _
  have hst1 : startsW lpa1D (generateLPAString addr code []) = true := by
    rw [hgen]
    exact startsW_append _ _
  have hsp : splitCh '$' (generateLPAString addr code []) =
      ["LPA:1".data, addr, code] := by
    rw [hgen, show lpa1D ++ (addr ++ '$' :: code) =
        "LPA:1".data ++ '$' :: (addr ++ '$' :: code) from rfl,
      splitCh_append '$' "LPA:1".data _ (by decide),
      splitCh_append '$' addr code hadollar,
      splitCh_all_not '$' code hcdollar]
  have hdollar : containsCh (generateLPAString addr code []) '$' = true := by
    rw [containsCh_eq_true_iff, hgen]
    exact List.mem_append.mpr (Or.inl (by decide))
  have d0 : dotRuleApp "LPA:1".data = false := by decide
  have d1 : dotRuleApp addr = true := by simp [dotRuleApp, hdot, hlen5]
  have d2 : dotRuleApp code = false := by simp [dotRuleApp, hcdot]
  have c0 : codeRuleApp "LPA:1".data = false := by decide
  have hlp1 : loopPick dotRuleApp ["LPA:1".data, addr, code] = some addr := by
    simp [loopPick, d0, d1, d2]
  have hlp2 : loopPick (fun p => !dotRuleApp p && codeRuleApp p)
      ["LPA:1".data, addr, code] = some code := by
    simp [loopPick, d0, d1, d2, c0, hcr]
  have hfixeq : lpa1D ++ addr ++ '$' :: code = generateLPAString addr code [] := by
    rw [hgen]
    simp [List.append_assoc]
  have hparse : parseLpaStringApp (lpa1D ++ addr ++ '$' :: code) =
      .ok addr code none (lpa1D ++ addr ++ '$' :: code) := by
    have hstt : startsW lpa1D (lpa1D ++ addr ++ '$' :: code) = true := by
      rw [show (lpa1D ++ addr ++ '$' :: code : Str) =
        lpa1D ++ (addr ++ '$' :: code) by simp [List.append_assoc]]
      exact startsW_append _ _
    simp only [parseLpaStringApp, hstt, Bool.not_true, Bool.false_eq_true, if_false]
    have hdrop : (lpa1D ++ addr ++ '$' :: code).drop 6 = addr ++ '$' :: code := by
      rw [show (lpa1D ++ addr ++ '$' :: code : Str) =
        lpa1D ++ (addr ++ '$' :: code) by simp [List.append_assoc]]
      rfl
    rw [hdrop]
    have hsp2 : splitCh '$' (addr ++ '$' :: code) = [addr, code] := by
      rw [splitCh_append '$' addr code hadollar, splitCh_all_not '$' code hcdollar]
    rw [hsp2]
    simp [List.getD]
  simp only [tryFixQRCodeApp, ht]
  rw [if_neg (by simp [hst])]
  rw [if_neg (by simp [hst1])]
  rw [if_pos ⟨hdollar, by rw [hsp]; simp⟩]
  rw [hsp, hlp1, hlp2]
  simp only [hparse]
  rw [hfixeq]

/-- C8 amended, covering both cited advisors.  English (`tryFixQRCode`):
repair is idempotent on canonical strings `LPA:1$addr$code[$pwd]` provided
additionally that the activation code matches the repair rule's
`[A-Za-z0-9-]{8,}` pattern and the confirmation code, when present, is free
of the delimiter characters of rule 3 and is different from `1`, from the
address and from the code (a confirmation equal to `1` — or to the address
or code — is dropped by the reorganization rule, breaking idempotence: see
the counterexample).  EsimSwapApp (`tryFixQRCodeApp`): repair is idempotent
only on *password-free* canonical strings whose address is longer than 5
characters and whose code passes its stricter filter `[A-Za-z0-9-]{11,}`;
on an 8-10 character code it fails outright (see the counterexample) and a
password is always dropped by its reorganization rule. -/
theorem C8_repairIdem (addr code pwd : Str)
    (hdom : domMatch addr = true)
    (hcode : fixCodePat code = true)
    (hpwd : pwd = [] ∨ (pwd ≠ [] ∧ (∀ x ∈ pwd, isFixDelim x = false) ∧
      pwd ≠ ['1'] ∧ pwd ≠ addr ∧ pwd ≠ code)) :
    tryFixQRCode (generateLPAString addr code pwd) =
      .fixed (generateLPAString addr code pwd) .reorganized ∧
    (5 < addr.length → codeRuleApp code = true →
      tryFixQRCodeApp (generateLPAString addr code []) =
        .ok .reorganized (generateLPAString addr code []) addr code none
          (generateLPAString addr code [])) := by
  refine ⟨?_, fun hlen5 hcr => tryFixApp_idem addr code hdom hlen5 hcr⟩
  obtain ⟨hdall, hdot⟩ := domMatch_chars addr hdom
  have hafd : ∀ x ∈ addr, isFixDelim x = false :=
    fun x hx => isDomChar_not_fixDelim x (hdall x hx)
  have haws : ∀ x ∈ addr, isWS x = false :=
    fun x hx => isDomChar_not_ws x (hdall x hx)
  have hcall : ∀ x ∈ code, isCodeChar x = true := by
    have h := hcode
    simp only [fixCodePat, Bool.and_eq_true, List.all_eq_true] at h
    exact fun x hx => h.2 x hx
  have hcfd : ∀ x ∈ code, isFixDelim x = false :=
    fun x hx => isCodeChar_not_fixDelim x (hcall x hx)
  have hcws : ∀ x ∈ code, isWS x = false :=
    fun x hx => isCodeChar_not_ws x (hcall x hx)
  have hcdot : containsCh code '.' = false := by
    cases hv : containsCh code '.'
    · rfl
    · exfalso
      have hm : '.' ∈ code := (containsCh_eq_true_iff code '.').mp hv
      exact absurd (hcall '.' hm) (by decide)
  rcases hpwd with rfl | ⟨hpne, hpfd, hp1, hpa, hpc⟩
  · have ht := jsTrim_gen_eq_self addr code [] (all_not_ws_fmt addr haws)
      (all_not_ws_fmt code hcws) (by decide)
    have hgen := gen_eq_of_empty addr code
    have hst : startsW lpaD (generateLPAString addr code []) = true := by
      rw [hgen, show lpa1D ++ (addr ++ '$' :: code) =
        lpaD ++ ('1' :: '$' :: (addr ++ '$' :: code)) from rfl]
      exact startsW_append _ _
    have hst1 : startsW lpa1D (generateLPAString addr code []) = true := by
      rw [hgen]
      exact startsW_append _ _
    have hsegs : splitBy isFixDelim (replaceFirst lpaD []
        (generateLPAString addr code [])) = [['1'], addr, code] := by
      rw [replaceFirst_of_startsW _ _ _ hst, hgen]
      rw [show ([] : Str) ++ (lpa1D ++ (addr ++ '$' :: code)).drop lpaD.length =
        ['1'] ++ '$' :: (addr ++ '$' :: code) from rfl]
      rw [splitBy_append _ ['1'] _ '$' (by decide) (by decide),
        splitBy_append _ addr _ '$' hafd (by decide),
        splitBy_all_not _ code hcfd]
    refine tryFix_rule3 _ _ ht (by simp [hst]) (by simp [hst1])
      [['1'], addr, code] hsegs (by simp) addr code ?_ ?_ _ ?_
    · have e1 : containsCh (['1'] : Str) '.' = false := by decide
      simp [List.find?_cons, e1, hdot]
    · have e1 : fixCodePat (['1'] : Str) = false := by decide
      simp [List.find?_cons, e1, hdot, hcode, hcdot]
    · have hf3 : ([['1'], addr, code] : List Str).find? (fun q => !q.isEmpty &&
          !(q == addr) && !(q == code) && !(q == ['1'])) = none := by
        rw [List.find?_eq_none]
        intro q hq
        simp only [List.mem_cons, List.not_mem_nil, or_false] at hq
        rcases hq with rfl | rfl | rfl <;> simp
      rw [hf3, hgen]
      simp [List.append_assoc]
  · have hpws : ∀ x ∈ pwd, isWS x = false :=
      fun x hx => ws_of_fixDelim_false x (hpfd x hx)
    have hpe : pwd.isEmpty = false := by
      rcases pwd with _ | ⟨x, xs⟩
      · exact absurd rfl hpne
      · rfl
    have ht := jsTrim_gen_eq_self addr code pwd (all_not_ws_fmt addr haws)
      (all_not_ws_fmt code hcws) (all_not_ws_fmt pwd hpws)
    have hgen := gen_eq_of_ne addr code pwd hpne
    have hst : startsW lpaD (generateLPAString addr code pwd) = true := by
      rw [hgen, show lpa1D ++ (addr ++ '$' :: (code ++ '$' :: pwd)) =
        lpaD ++ ('1' :: '$' :: (addr ++ '$' :: (code ++ '$' :: pwd))) from rfl]
      exact startsW_append _ _
    have hst1 : startsW lpa1D (generateLPAString addr code pwd) = true := by
      rw [hgen]
      exact startsW_append _ _
    have hsegs : splitBy isFixDelim (replaceFirst lpaD []
        (generateLPAString addr code pwd)) = [['1'], addr, code, pwd] := by
      rw [replaceFirst_of_startsW _ _ _ hst, hgen]
      rw [show ([] : Str) ++
          (lpa1D ++ (addr ++ '$' :: (code ++ '$' :: pwd))).drop lpaD.length =
        ['1'] ++ '$' :: (addr ++ '$' :: (code ++ '$' :: pwd)) from rfl]
      rw [splitBy_append _ ['1'] _ '$' (by decide) (by decide),
        splitBy_append _ addr _ '$' hafd (by decide),
        splitBy_append _ code _ '$' hcfd (by decide),
        splitBy_all_not _ pwd hpfd]
    refine tryFix_rule3 _ _ ht (by simp [hst]) (by simp [hst1])
      [['1'], addr, code, pwd] hsegs (by simp) addr code ?_ ?_ _ ?_
    · have e1 : containsCh (['1'] : Str) '.' = false := by decide
      simp [List.find?_cons, e1, hdot]
    · have e1 : fixCodePat (['1'] : Str) = false := by decide
      simp [List.find?_cons, e1, hdot, hcode, hcdot]
    · have b1 : (pwd == addr) = false := beq_eq_false_iff_ne.mpr hpa
      have b2 : (pwd == code) = false := beq_eq_false_iff_ne.mpr hpc
      have b3 : (pwd == (['1'] : Str)) = false := beq_eq_false_iff_ne.mpr hp1
      have hf3 : ([['1'], addr, code, pwd] : List Str).find? (fun q => !q.isEmpty &&
          !(q == addr) && !(q == code) && !(q == ['1'])) = some pwd := by
        simp [List.find?_cons, hpe, b1, b2, b3]
      rw [hf3, hgen]
      simp [List.append_assoc]

theorem C8_repairIdem_witness :
    tryFixQRCode (generateLPAString "t-mobile.idemia.io".data "ABCDE123456".data
        "5678".data) =
      FixResult.fixed (generateLPAString "t-mobile.idemia.io".data "ABCDE123456".data
        "5678".data) FixProblem.reorganized ∧
    tryFixQRCodeApp (generateLPAString "t-mobile.idemia.io".data "ABCDE123456".data []) =
      AppFixResult.ok FixProblem.reorganized
        (generateLPAString "t-mobile.idemia.io".data "ABCDE123456".data [])
        "t-mobile.idemia.io".data "ABCDE123456".data none
        (generateLPAString "t-mobile.idemia.io".data "ABCDE123456".data []) :=
  ⟨(C8_repairIdem "t-mobile.idemia.io".data "ABCDE123456".data "5678".data
      (by decide) (by decide) (Or.inr (by decide))).1,
   (C8_repairIdem "t-mobile.idemia.io".data "ABCDE123456".data "5678".data
      (by decide) (by decide) (Or.inr (by decide))).2 (by decide) (by decide)⟩
